import Mathlib

/-!
# A shallow embedding of the `BroadcastGroup` core of `logifly`

This file embeds the orchestration core of the repository — the
`BroadcastGroup` class of `src/broadcast.ts` together with the error
classes of `src/utils/errors.ts` — as executable Lean definitions, and
proves the specified properties about them.

Modelling conventions:

* A JavaScript promise that has settled is modelled by `SendOutcome`:
  either `fulfilled` with an opaque result (a `String`), or `rejected`
  carrying the message text of the failure (`err.message`).
* A duck-typed client is modelled by `PlatformClient`: the constructor
  name (used for the platform label), the behaviour of `send`, and the
  optional capabilities `sendEmbed` and `testConnection` as `Option`s
  (`none` models `typeof client.x !== "function"`).
* The raw value handed to `addClient` is a `RawClient`: it may be
  nullish, or may lack a callable `send`, which is what the guard
  `!client || typeof client.send !== "function"` inspects.
* A thrown JavaScript error is a `JsError` (its `name`, `message` and
  optional `code` fields, matching `src/utils/errors.ts`); a method
  that can throw returns `Except JsError _`.
* A JavaScript object used as a string-keyed record is an association
  list in insertion order; assigning to a key that is already present
  overwrites the value in place, assigning a fresh key appends
  (`recordSet`).  The concurrent `Promise.allSettled` fan-out is
  modelled by a deterministic left fold: every per-client task writes
  only its own alias key, so for distinct aliases the fold order is
  irrelevant, exactly as in the source.
-/

/-- Outcome of an awaited `send` / `sendEmbed` call: the promise either
fulfilled with an opaque result or rejected with an error message. -/
inductive SendOutcome where
  | fulfilled (result : String)
  | rejected (errMessage : String)
deriving DecidableEq, Repr

/-- Outcome of an awaited `testConnection()` call: fulfilled with a
boolean, or rejected with an error message. -/
inductive TCOutcome where
  | fulfilled (connected : Bool)
  | rejected (errMessage : String)
deriving DecidableEq, Repr

/-- Returns `true` exactly when the outcome is a rejection. -/
def SendOutcome.isRejected : SendOutcome → Bool
  | .fulfilled _ => false
  | .rejected _ => true

/-- The message text carried by a rejection (meaningless on fulfilment). -/
def SendOutcome.rejMessage : SendOutcome → String
  | .fulfilled _ => ""
  | .rejected m => m

/-- The result carried by a fulfilment (meaningless on rejection). -/
def SendOutcome.fulResult : SendOutcome → String
  | .fulfilled r => r
  | .rejected _ => ""

/-- Options record passed through to `send` (`Record<string, any>`),
kept opaque as a list of key/value pairs. -/
abbrev Opts := List (String × String)

/-- Embed configuration (`EmbedOptions`): the fields `broadcast.ts`
reads (`title`, `description`) plus the `color` the severity shortcuts
set. -/
structure EmbedOptions where
  title : String
  description : String
  color : Nat
deriving DecidableEq, Repr

/-- Behaviour of a duck-typed platform client.  `ctorName` is
`client.constructor.name`; `sendEmbed` / `testConnection` are `none`
when the client does not expose that function. -/
structure PlatformClient where
  ctorName : String
  send : String → Option Opts → SendOutcome
  sendEmbed : Option (EmbedOptions → SendOutcome)
  testConnection : Option TCOutcome

/-- The raw value handed to `addClient` before validation: possibly
nullish, possibly lacking a callable `send`. -/
structure RawClient where
  isNullish : Bool
  sendIsFunction : Bool
  client : PlatformClient

/-- A thrown JavaScript error value: its `name`, `message` and the
`code` field the library's own error classes add. -/
structure JsError where
  name : String
  message : String
  code : Option String
deriving DecidableEq, Repr

/-- Value of `new Error(message)` — the base class, `name` is `"Error"`. -/
def mkJsError (message : String) : JsError :=
  { name := "Error", message := message, code := none }

/-- Embedding of `notiflyError` from `src/utils/errors.ts`: sets `code` and
`name = 'notiflyError'`. -/
def notiflyError (message code : String) : JsError :=
  { name := "notiflyError", message := message, code := some code }

/-- Embedding of `ConfigurationError` from `src/utils/errors.ts`: forwards
`code = 'CONFIGURATION_ERROR'` and overrides `name`. -/
def ConfigurationError (message : String) : JsError :=
  { notiflyError message "CONFIGURATION_ERROR" with name := "ConfigurationError" }

/-- Drops `pat` from the front of `s`; `none` when `pat` is not a
prefix of `s`. -/
def dropPrefixQ : List Char → List Char → Option (List Char)
  | [], s => some s
  | _ :: _, [] => none
  | a :: p, b :: s => if a = b then dropPrefixQ p s else none

/-- JavaScript `String.prototype.replace` with a string pattern:
replaces only the FIRST occurrence of `pat` (scanning left to right)
by `repl`, and returns the string unchanged when `pat` never occurs. -/
def replaceFirstL (pat repl : List Char) : List Char → List Char
  | [] => []
  | c :: s =>
    match dropPrefixQ pat (c :: s) with
    | some rest => repl ++ rest
    | none => c :: replaceFirstL pat repl s

/-- Wrapper of `replaceFirstL` on `String`. -/
def replaceFirst (pat repl s : String) : String :=
  ⟨replaceFirstL pat.data repl.data s.data⟩

/-- Returns `true` when `pat` occurs as a contiguous substring of `s`. -/
def occursIn (pat : List Char) : List Char → Bool
  | [] => (dropPrefixQ pat []).isSome
  | c :: s => (dropPrefixQ pat (c :: s)).isSome || occursIn pat s

/-- ASCII `toLowerCase()`, character by character (the constructor
names at play are ASCII identifiers). -/
def toLowerStr (s : String) : String :=
  ⟨s.data.map Char.toLower⟩

/-- The platform label `addClient` derives:
`client.constructor.name.replace("Client", "").toLowerCase()`. -/
def platformLabel (ctorName : String) : String :=
  toLowerStr (replaceFirst "Client" "" ctorName)

/-- One registered participant of a group (`ClientEntry` of
`broadcast.ts`); `aliasName` is the source's `alias` field. -/
structure ClientEntry where
  client : PlatformClient
  aliasName : String
  platform : String

/-- The `BroadcastGroup` state: its name and the ordered list of
registered clients. -/
structure BroadcastGroup where
  name : String
  clients : List ClientEntry

/-- Per-client outcome record (`BroadcastResult`). -/
structure BroadcastResult where
  success : Bool
  platform : String
  result : Option String := none
  error : Option String := none
  note : Option String := none
deriving DecidableEq, Repr

/-- Aggregated result of one broadcast call (`BroadcastSummary`);
`results` is the alias-keyed record in insertion order. -/
structure BroadcastSummary where
  groupName : String
  totalClients : Nat
  results : List (String × BroadcastResult)
deriving DecidableEq, Repr

/-- Per-client connectivity probe record (`TestConnectionResult`). -/
structure TestConnectionResult where
  platform : String
  connected : Bool
  error : Option String := none
deriving DecidableEq, Repr

/-- Assignment `m[k] = v` on a JavaScript object viewed as an ordered
record: overwrite in place when `k` is present, append otherwise. -/
def recordSet (m : List (String × α)) (k : String) (v : α) : List (String × α) :=
  if m.any (fun p => p.1 = k) then
    m.map (fun p => if p.1 = k then (k, v) else p)
  else
    m ++ [(k, v)]

/-- Embedding of `BroadcastGroup.addClient`: validates that the raw value is
non-nullish with a callable `send` (throwing
`new Error("Invalid client: must implement send()")` otherwise), then
appends an entry whose alias is the caller's — or `client_<n+1>` when
the caller's alias is absent or falsy — and whose platform label is
derived from the constructor name. -/
def addClient (g : BroadcastGroup) (raw : RawClient) (a : Option String) :
    Except JsError BroadcastGroup :=
  if raw.isNullish || !raw.sendIsFunction then
    .error (mkJsError "Invalid client: must implement send()")
  else
    .ok { g with
      clients := g.clients ++
        [{ client := raw.client
         , aliasName :=
             match a with
             | some s => if s = "" then "client_" ++ toString (g.clients.length + 1) else s
             | none => "client_" ++ toString (g.clients.length + 1)
         , platform := platformLabel raw.client.ctorName }] }

/-- The group state after an `addClient` call: updated on success,
unchanged when the call threw. -/
def addClientState (g : BroadcastGroup) (raw : RawClient) (a : Option String) :
    BroadcastGroup :=
  match addClient g raw a with
  | .ok g' => g'
  | .error _ => g

/-- Removes the first entry with the given alias from a client list;
also reports whether one was removed. -/
def removeFirstAlias (a : String) : List ClientEntry → List ClientEntry × Bool
  | [] => ([], false)
  | c :: cs =>
    if c.aliasName = a then (cs, true)
    else
      let r := removeFirstAlias a cs
      (c :: r.1, r.2)

/-- Embedding of `BroadcastGroup.removeClient`: `findIndex` + `splice(index, 1)` —
removes the first entry whose alias matches exactly, returning whether
one was removed. -/
def removeClient (g : BroadcastGroup) (a : String) : BroadcastGroup × Bool :=
  let r := removeFirstAlias a g.clients
  ({ g with clients := r.1 }, r.2)

/-- Embedding of `BroadcastGroup.size`. -/
def size (g : BroadcastGroup) : Nat :=
  g.clients.length

/-- The per-client task of `broadcast`: await `client.send(message,
options)`, mapping fulfilment to a `success: true` record and
rejection to a `success: false` record carrying `err.message`. -/
def sendResultFor (e : ClientEntry) (message : String) (options : Opts) :
    BroadcastResult :=
  match e.client.send message (some options) with
  | .fulfilled r => { success := true, platform := e.platform, result := some r }
  | .rejected m => { success := false, platform := e.platform, error := some m }

/-- Embedding of `BroadcastGroup.broadcast`: fan out `send` to every client,
collect each settled outcome under the client's alias, and return the
summary.  The call itself always returns a summary (`Promise.allSettled`
plus a per-client `try`/`catch`: no rejection propagates). -/
def broadcast (g : BroadcastGroup) (message : String) (options : Opts) :
    BroadcastSummary :=
  { groupName := g.name
  , totalClients := g.clients.length
  , results := g.clients.foldl
      (fun acc e => recordSet acc e.aliasName (sendResultFor e message options)) [] }

/-- The plain-text rendering `broadcastEmbed` falls back to when the
client lacks `sendEmbed`. -/
def embedFallbackText (embed : EmbedOptions) : String :=
  "**" ++ embed.title ++ "**\n" ++ embed.description

/-- The per-client task of `broadcastEmbed`: use `sendEmbed` when the
client exposes it, otherwise send the plain-text rendering and tag the
fulfilment with the degradation note. -/
def embedResultFor (e : ClientEntry) (embed : EmbedOptions) : BroadcastResult :=
  match e.client.sendEmbed with
  | some f =>
    match f embed with
    | .fulfilled r => { success := true, platform := e.platform, result := some r }
    | .rejected m => { success := false, platform := e.platform, error := some m }
  | none =>
    match e.client.send (embedFallbackText embed) none with
    | .fulfilled r =>
      { success := true, platform := e.platform, result := some r
      , note := some "Embed not supported; sent as plain text." }
    | .rejected m => { success := false, platform := e.platform, error := some m }

/-- Embedding of `BroadcastGroup.broadcastEmbed`: same settle-all fan-out as
`broadcast`, with the per-client embed/fallback task. -/
def broadcastEmbed (g : BroadcastGroup) (embed : EmbedOptions) : BroadcastSummary :=
  { groupName := g.name
  , totalClients := g.clients.length
  , results := g.clients.foldl
      (fun acc e => recordSet acc e.aliasName (embedResultFor e embed)) [] }

/-- Embedding of `BroadcastGroup.broadcastSuccess`: green success embed shortcut. -/
def broadcastSuccess (g : BroadcastGroup) (title description : String) :
    BroadcastSummary :=
  broadcastEmbed g { title := "✅ " ++ title, description := description, color := 0x00ff00 }

/-- Embedding of `BroadcastGroup.broadcastError`: red error embed shortcut. -/
def broadcastError (g : BroadcastGroup) (title description : String) :
    BroadcastSummary :=
  broadcastEmbed g { title := "❌ " ++ title, description := description, color := 0xff0000 }

/-- Embedding of `BroadcastGroup.broadcastWarning`: yellow warning embed shortcut. -/
def broadcastWarning (g : BroadcastGroup) (title description : String) :
    BroadcastSummary :=
  broadcastEmbed g { title := "⚠️ " ++ title, description := description, color := 0xffff00 }

/-- Embedding of `BroadcastGroup.broadcastInfo`: blue info embed shortcut. -/
def broadcastInfo (g : BroadcastGroup) (title description : String) :
    BroadcastSummary :=
  broadcastEmbed g { title := "ℹ️ " ++ title, description := description, color := 0x3498db }

/-- The per-client task of `testConnections`: call `testConnection`
when exposed (a rejection is caught by the surrounding `try` and
recorded with its message); otherwise probe with
`send("Test").then(() => true).catch(() => false)`, which never
rejects. -/
def tcResultFor (e : ClientEntry) : TestConnectionResult :=
  match e.client.testConnection with
  | some o =>
    match o with
    | .fulfilled b => { platform := e.platform, connected := b }
    | .rejected m => { platform := e.platform, connected := false, error := some m }
  | none =>
    match e.client.send "Test" none with
    | .fulfilled _ => { platform := e.platform, connected := true }
    | .rejected _ => { platform := e.platform, connected := false }

/-- Embedding of `BroadcastGroup.testConnections`: settle-all fan-out of the
connectivity probe, keyed by alias. -/
def testConnections (g : BroadcastGroup) : List (String × TestConnectionResult) :=
  g.clients.foldl (fun acc e => recordSet acc e.aliasName (tcResultFor e)) []

/-- Embedding of `BroadcastGroup.listClients`. -/
def listClients (g : BroadcastGroup) : List (String × String) :=
  g.clients.map (fun e => (e.aliasName, e.platform))

/-- Groups reachable through the public API: a freshly constructed
empty group, extended by successful `addClient` calls (the constructor
routes its initial client list through `addClient`) and by
`removeClient` calls. -/
inductive Reachable : BroadcastGroup → Prop
  | new (name : String) : Reachable { name := name, clients := [] }
  | add (g g' : BroadcastGroup) (raw : RawClient) (a : Option String) :
      Reachable g → addClient g raw a = .ok g' → Reachable g'
  | remove (g : BroadcastGroup) (a : String) :
      Reachable g → Reachable (removeClient g a).1

/-! ## Concrete clients used as witnesses and counterexamples -/

/-- A `send` that always fulfills, echoing the message. -/
def okSend : String → Option Opts → SendOutcome := fun m _ => .fulfilled m

/-- A `send` that always rejects with the given message text. -/
def failSend (m : String) : String → Option Opts → SendOutcome := fun _ _ => .rejected m

/-- A minimal always-succeeding client. -/
def clientOK : PlatformClient :=
  { ctorName := "DiscordClient", send := okSend, sendEmbed := none, testConnection := none }

/-- A minimal always-failing client. -/
def clientFail : PlatformClient :=
  { ctorName := "SlackClient", send := failSend "timeout", sendEmbed := none
  , testConnection := none }

/-- A valid raw registration argument wrapping `clientOK`. -/
def rawOK : RawClient := { isNullish := false, sendIsFunction := true, client := clientOK }

/-- A valid raw registration argument wrapping `clientFail`. -/
def rawFail : RawClient := { isNullish := false, sendIsFunction := true, client := clientFail }

/-- A nullish registration argument (`addClient(null)`). -/
def rawNull : RawClient := { isNullish := true, sendIsFunction := false, client := clientOK }

/-- The empty group `new BroadcastGroup("alerts")`. -/
def emptyGroup : BroadcastGroup := { name := "alerts", clients := [] }

/-- A group holding two clients registered under the SAME alias `"a"`
(one fulfilling, one rejecting), built through `addClient`. -/
def dupAliasGroup : BroadcastGroup :=
  addClientState (addClientState emptyGroup rawOK (some "a")) rawFail (some "a")

/-! ## Record and fold lemmas -/

theorem recordSet_fresh (m : List (String × α)) (k : String) (v : α)
    (h : ∀ p ∈ m, p.1 ≠ k) : recordSet m k v = m ++ [(k, v)] := by
  have : m.any (fun p => p.1 = k) = false := by
    simp only [List.any_eq_false, decide_eq_true_eq]
    exact h
  simp [recordSet, this]

theorem mem_recordSet (m : List (String × α)) (k : String) (v : α) (p : String × α)
    (h : p ∈ recordSet m k v) : p ∈ m ∨ p = (k, v) := by
  unfold recordSet at h
  by_cases hc : m.any (fun p => p.1 = k) = true
  · simp only [hc, if_true, List.mem_map] at h
    obtain ⟨q, hq, hqe⟩ := h
    by_cases hk : q.1 = k
    · right
      rw [← hqe]
      simp [hk]
    · left
      rw [← hqe]
      simpa [hk] using hq
  · simp only [Bool.not_eq_true] at hc
    simp only [hc, Bool.false_eq_true, if_false, List.mem_append, List.mem_singleton] at h
    exact h

theorem foldl_recordSet_eq_map (f : ClientEntry → α) :
    ∀ (cs : List ClientEntry) (acc : List (String × α)),
      (∀ e ∈ cs, ∀ p ∈ acc, p.1 ≠ e.aliasName) →
      (cs.map (fun e => e.aliasName)).Nodup →
      cs.foldl (fun acc e => recordSet acc e.aliasName (f e)) acc
        = acc ++ cs.map (fun e => (e.aliasName, f e))
  | [], acc, _, _ => by simp
  | c :: cs, acc, hfresh, hnd => by
    have hstep : recordSet acc c.aliasName (f c) = acc ++ [(c.aliasName, f c)] :=
      recordSet_fresh acc c.aliasName (f c) (hfresh c (List.mem_cons_self c cs))
    have hnd2 := hnd
    rw [List.map_cons, List.nodup_cons] at hnd2
    have hnd' : (cs.map (fun e => e.aliasName)).Nodup := hnd2.2
    have hne : ∀ e ∈ cs, c.aliasName ≠ e.aliasName := by
      intro e he hco
      exact hnd2.1 (hco ▸ List.mem_map_of_mem (fun e => e.aliasName) he)
    have hfresh' : ∀ e ∈ cs, ∀ p ∈ acc ++ [(c.aliasName, f c)], p.1 ≠ e.aliasName := by
      intro e he p hp
      rcases List.mem_append.mp hp with h1 | h2
      · exact hfresh e (List.mem_cons_of_mem c he) p h1
      · have : p = (c.aliasName, f c) := by simpa using h2
        simpa [this] using hne e he
    calc (c :: cs).foldl (fun acc e => recordSet acc e.aliasName (f e)) acc
        = cs.foldl (fun acc e => recordSet acc e.aliasName (f e))
            (acc ++ [(c.aliasName, f c)]) := by
          simp [List.foldl_cons, hstep]
      _ = acc ++ [(c.aliasName, f c)] ++ cs.map (fun e => (e.aliasName, f e)) :=
          foldl_recordSet_eq_map f cs (acc ++ [(c.aliasName, f c)]) hfresh' hnd'
      _ = acc ++ (c :: cs).map (fun e => (e.aliasName, f e)) := by simp

theorem mem_foldl_recordSet (f : ClientEntry → α) :
    ∀ (cs : List ClientEntry) (acc : List (String × α)) (p : String × α),
      p ∈ cs.foldl (fun acc e => recordSet acc e.aliasName (f e)) acc →
      p ∈ acc ∨ ∃ e ∈ cs, p = (e.aliasName, f e)
  | [], acc, p, h => Or.inl (by simpa using h)
  | c :: cs, acc, p, h => by
    have := mem_foldl_recordSet f cs (recordSet acc c.aliasName (f c)) p
      (by simpa [List.foldl_cons] using h)
    rcases this with hin | ⟨e, he, hpe⟩
    · rcases mem_recordSet acc c.aliasName (f c) p hin with h1 | h2
      · exact Or.inl h1
      · exact Or.inr ⟨c, List.mem_cons_self c cs, h2⟩
    · exact Or.inr ⟨e, List.mem_cons_of_mem c he, hpe⟩

/-- With pairwise-distinct aliases, the results record of `broadcast`
is exactly one entry per client, in registration order. -/
theorem broadcast_results_eq_map (g : BroadcastGroup) (message : String) (options : Opts)
    (hnd : (g.clients.map (fun e => e.aliasName)).Nodup) :
    (broadcast g message options).results
      = g.clients.map (fun e => (e.aliasName, sendResultFor e message options)) := by
  have := foldl_recordSet_eq_map (fun e => sendResultFor e message options) g.clients []
    (by intro e _ p hp; simp at hp) hnd
  simpa [broadcast] using this

/-- With pairwise-distinct aliases, the results record of
`broadcastEmbed` is exactly one entry per client, in registration
order. -/
theorem broadcastEmbed_results_eq_map (g : BroadcastGroup) (embed : EmbedOptions)
    (hnd : (g.clients.map (fun e => e.aliasName)).Nodup) :
    (broadcastEmbed g embed).results
      = g.clients.map (fun e => (e.aliasName, embedResultFor e embed)) := by
  have := foldl_recordSet_eq_map (fun e => embedResultFor e embed) g.clients []
    (by intro e _ p hp; simp at hp) hnd
  simpa [broadcastEmbed] using this

/-- With pairwise-distinct aliases, `testConnections` yields exactly
one probe record per client, in registration order. -/
theorem testConnections_eq_map (g : BroadcastGroup)
    (hnd : (g.clients.map (fun e => e.aliasName)).Nodup) :
    testConnections g = g.clients.map (fun e => (e.aliasName, tcResultFor e)) := by
  have := foldl_recordSet_eq_map (fun e => tcResultFor e) g.clients []
    (by intro e _ p hp; simp at hp) hnd
  simpa [testConnections] using this

/-- The per-client record of `broadcast` marks success exactly when the
client's `send` did not reject. -/
theorem sendResultFor_success (e : ClientEntry) (message : String) (options : Opts) :
    (decide ((sendResultFor e message options).success = false))
      = (e.client.send message (some options)).isRejected := by
  unfold sendResultFor
  cases e.client.send message (some options) <;> simp [SendOutcome.isRejected]

/-- In any results record, the entries marked successful and the
entries marked failed partition the record. -/
theorem countP_success_split (l : List (String × BroadcastResult)) :
    l.countP (fun p => p.2.success) + l.countP (fun p => !p.2.success) = l.length := by
  induction l with
  | nil => simp
  | cons a l ih =>
    cases h : a.2.success <;> simp [List.countP_cons, h] <;> omega

/-- C1 (amended): for every group whose aliases are pairwise distinct,
with N registered clients of which K have a rejecting `send`,
`broadcast` returns a summary with exactly N result entries, K of them
`success = false`, N−K of them `success = true`, and
`totalClients = N`. -/
theorem broadcast_counts (g : BroadcastGroup) (message : String) (options : Opts)
    (N K : Nat)
    (hnd : (g.clients.map (fun e => e.aliasName)).Nodup)
    (hN : g.clients.length = N)
    (hK : g.clients.countP (fun e => (e.client.send message (some options)).isRejected) = K) :
    (broadcast g message options).results.length = N ∧
    (broadcast g message options).results.countP (fun p => p.2.success = false) = K ∧
    (broadcast g message options).results.countP (fun p => p.2.success = true) = N - K ∧
    (broadcast g message options).totalClients = N := by
  have hres := broadcast_results_eq_map g message options hnd
  have hfalse : (broadcast g message options).results.countP
      (fun p => p.2.success = false) = K := by
    rw [hres, List.countP_map, ← hK]
    apply List.countP_congr
    intro e _
    show decide ((sendResultFor e message options).success = false) = true
      ↔ (e.client.send message (some options)).isRejected = true
    rw [sendResultFor_success e message options]
  have hlen : (broadcast g message options).results.length = N := by
    rw [hres, List.length_map, hN]
  refine ⟨hlen, hfalse, ?_, ?_⟩
  · have hsplit := countP_success_split (broadcast g message options).results
    have e1 : (broadcast g message options).results.countP (fun p => p.2.success = true)
        = (broadcast g message options).results.countP (fun p => p.2.success) :=
      List.countP_congr (by intro x _; simp)
    have e2 : (broadcast g message options).results.countP (fun p => p.2.success = false)
        = (broadcast g message options).results.countP (fun p => !p.2.success) :=
      List.countP_congr (by intro x _; simp)
    omega
  · simpa [broadcast] using hN

/-- C1 (counterexample): a group of two registered clients sharing the
alias `"a"` — one fulfilling, one rejecting — yields a summary with a
single result entry, not two, although `totalClients = 2`. -/
theorem broadcast_dup_alias_cex :
    dupAliasGroup.clients.length = 2 ∧
    dupAliasGroup.clients.countP (fun e => (e.client.send "hi" (some [])).isRejected) = 1 ∧
    (broadcast dupAliasGroup "hi" []).totalClients = 2 ∧
    (broadcast dupAliasGroup "hi" []).results.length = 1 ∧
    ¬((broadcast dupAliasGroup "hi" []).results.length = 2) := by
  refine ⟨rfl, rfl, rfl, rfl, by decide⟩

/-- The two-client scenario group of the spec: client_1 fulfils,
client_2 rejects with "timeout", distinct auto-generated aliases. -/
def scenarioGroup : BroadcastGroup :=
  addClientState (addClientState emptyGroup rawOK none) rawFail none

/-- C1 (witness): the amended count property evaluated on the
two-client scenario group. -/
theorem broadcast_counts_witness :
    (broadcast scenarioGroup "hi" []).results.length = 2 ∧
    (broadcast scenarioGroup "hi" []).results.countP (fun p => p.2.success = false) = 1 ∧
    (broadcast scenarioGroup "hi" []).results.countP (fun p => p.2.success = true) = 2 - 1 ∧
    (broadcast scenarioGroup "hi" []).totalClients = 2 :=
  broadcast_counts scenarioGroup "hi" [] 2 1 (by decide) (by decide) (by decide)

/-- C2: `broadcast` is a total function into summaries (it never
rejects): even when every registered client's `send` rejects, every
entry of the summary has `success = false` and carries the message
text of that client's failure. -/
theorem broadcast_all_rejected (g : BroadcastGroup) (message : String) (options : Opts)
    (h : ∀ e ∈ g.clients, (e.client.send message (some options)).isRejected = true) :
    ∀ p ∈ (broadcast g message options).results,
      p.2.success = false ∧
      ∃ e ∈ g.clients, e.aliasName = p.1 ∧
        p.2.error = some ((e.client.send message (some options)).rejMessage) := by
  intro p hp
  have hmem := mem_foldl_recordSet (fun e => sendResultFor e message options)
    g.clients [] p (by simpa [broadcast] using hp)
  rcases hmem with h0 | ⟨e, he, hpe⟩
  · simp at h0
  · subst hpe
    have hrej := h e he
    cases hs : e.client.send message (some options) with
    | fulfilled r =>
      rw [hs] at hrej
      simp [SendOutcome.isRejected] at hrej
    | rejected m =>
      exact ⟨by simp [sendResultFor, hs],
        e, he, rfl, by simp [sendResultFor, hs, SendOutcome.rejMessage]⟩

/-- A group holding a single always-rejecting client. -/
def soloFailGroup : BroadcastGroup := addClientState emptyGroup rawFail none

/-- C2 (witness): the total-failure property evaluated on a group whose
only client always rejects with "timeout". -/
theorem broadcast_all_rejected_witness :
    (∀ e ∈ soloFailGroup.clients, (e.client.send "hi" (some [])).isRejected = true) ∧
    (∀ p ∈ (broadcast soloFailGroup "hi" []).results,
      p.2.success = false ∧
      ∃ e ∈ soloFailGroup.clients, e.aliasName = p.1 ∧
        p.2.error = some ((e.client.send "hi" (some [])).rejMessage)) :=
  ⟨by decide, broadcast_all_rejected soloFailGroup "hi" [] (by decide)⟩

/-- A non-nullish registration argument lacking a callable `send`
(e.g. `addClient({})`). -/
def rawNoSend : RawClient := { isNullish := false, sendIsFunction := false, client := clientOK }

/-- C3 (counterexample): registering a nullish value throws the BASE
`Error` class — not the library's `ConfigurationError` class (which
would carry `name = "ConfigurationError"` and a code), although the
message text matches. -/
theorem addClient_error_class_cex :
    addClient emptyGroup rawNull none
      = .error (mkJsError "Invalid client: must implement send()") ∧
    addClient emptyGroup rawNoSend none
      = .error (mkJsError "Invalid client: must implement send()") ∧
    (mkJsError "Invalid client: must implement send()").name = "Error" ∧
    (ConfigurationError "Invalid client: must implement send()").name = "ConfigurationError" ∧
    mkJsError "Invalid client: must implement send()"
      ≠ ConfigurationError "Invalid client: must implement send()" := by
  refine ⟨rfl, rfl, rfl, rfl, by decide⟩

/-- C3 (amended): for every group state and every value lacking a
callable `send` (including null/undefined), `addClient` synchronously
throws the base-`Error`-class condition with message
"Invalid client: must implement send()" and appends no entry: the
group, and hence `size()`, is unchanged by the failed call. -/
theorem addClient_invalid_throws (g : BroadcastGroup) (raw : RawClient) (a : Option String)
    (h : raw.isNullish = true ∨ raw.sendIsFunction = false) :
    addClient g raw a = .error (mkJsError "Invalid client: must implement send()") ∧
    addClientState g raw a = g ∧
    size (addClientState g raw a) = size g := by
  have hcond : (raw.isNullish || !raw.sendIsFunction) = true := by
    rcases h with h | h <;> simp [h]
  refine ⟨?_, ?_, ?_⟩ <;> simp [addClient, addClientState, hcond]

/-- C3 (witness): the amended registration-failure property evaluated
at the empty group and a nullish client. -/
theorem addClient_invalid_throws_witness :
    addClient emptyGroup rawNull (some "x")
      = .error (mkJsError "Invalid client: must implement send()") ∧
    addClientState emptyGroup rawNull (some "x") = emptyGroup ∧
    size (addClientState emptyGroup rawNull (some "x")) = size emptyGroup :=
  addClient_invalid_throws emptyGroup rawNull (some "x") (Or.inl rfl)

/-- C4: for every registered client without a `sendEmbed` function (in
a group with pairwise-distinct aliases), `broadcastEmbed` calls that
client's `send` with exactly `"**" ++ title ++ "**" ++ "\n" ++
description`, and on fulfilment records `success = true` with the
degradation note under that client's alias; `sendEmbed` is never
invoked on it (the recorded entry is determined by `send` alone). -/
theorem broadcastEmbed_fallback (g : BroadcastGroup) (embed : EmbedOptions)
    (e : ClientEntry) (r : String)
    (hnd : (g.clients.map (fun x => x.aliasName)).Nodup)
    (he : e ∈ g.clients)
    (hcap : e.client.sendEmbed = none)
    (hsend : e.client.send ("**" ++ embed.title ++ "**" ++ "\n" ++ embed.description) none
      = .fulfilled r) :
    (e.aliasName,
      { success := true, platform := e.platform, result := some r
      , note := some "Embed not supported; sent as plain text." })
      ∈ (broadcastEmbed g embed).results := by
  rw [broadcastEmbed_results_eq_map g embed hnd]
  have hmsg : embedFallbackText embed
      = "**" ++ embed.title ++ "**" ++ "\n" ++ embed.description := by
    simp [embedFallbackText, String.append_assoc]
  have hval : embedResultFor e embed
      = { success := true, platform := e.platform, result := some r
        , note := some "Embed not supported; sent as plain text." } := by
    rw [embedResultFor, hcap]
    rw [hmsg, hsend]
  exact hval ▸ List.mem_map_of_mem (fun e => (e.aliasName, embedResultFor e embed)) he

/-- A client exposing only `send` (no `sendEmbed`), echoing messages. -/
def soloEchoGroup : BroadcastGroup := addClientState emptyGroup rawOK none

/-- C4 (witness): the fallback property evaluated on a one-client group
whose client echoes the synthesized plain-text rendering. -/
theorem broadcastEmbed_fallback_witness :
    (("client_1" : String),
      ({ success := true, platform := "discord", result := some "**T**\nD"
       , note := some "Embed not supported; sent as plain text." } : BroadcastResult))
      ∈ (broadcastEmbed soloEchoGroup
          { title := "T", description := "D", color := 0x00ff00 }).results := by
  have hl : soloEchoGroup.clients
      = [{ client := clientOK, aliasName := "client_1", platform := "discord" }] := rfl
  have h := broadcastEmbed_fallback soloEchoGroup
    { title := "T", description := "D", color := 0x00ff00 }
    { client := clientOK, aliasName := "client_1", platform := "discord" }
    "**T**\nD" (by decide) (by rw [hl]; exact List.mem_singleton.mpr rfl) rfl rfl
  simpa using h

/-- C5: `testConnections` is a total function (the aggregate call never
rejects), and for every registered client without a `testConnection`
function (in a group with pairwise-distinct aliases) the
`send("Test")` fallback is mapped locally: a rejection yields a
`connected = false` record under that client's alias, a fulfilment a
`connected = true` record. -/
theorem testConnections_fallback (g : BroadcastGroup) (e : ClientEntry)
    (hnd : (g.clients.map (fun x => x.aliasName)).Nodup)
    (he : e ∈ g.clients)
    (hcap : e.client.testConnection = none) :
    ((e.client.send "Test" none).isRejected = true →
      (e.aliasName, ({ platform := e.platform, connected := false } : TestConnectionResult))
        ∈ testConnections g) ∧
    ((e.client.send "Test" none).isRejected = false →
      (e.aliasName, ({ platform := e.platform, connected := true } : TestConnectionResult))
        ∈ testConnections g) := by
  rw [testConnections_eq_map g hnd]
  constructor
  · intro hrej
    have hval : tcResultFor e = { platform := e.platform, connected := false } := by
      rw [tcResultFor, hcap]
      cases hs : e.client.send "Test" none with
      | fulfilled r => rw [hs] at hrej; simp [SendOutcome.isRejected] at hrej
      | rejected m => rfl
    exact hval ▸ List.mem_map_of_mem (fun e => (e.aliasName, tcResultFor e)) he
  · intro hful
    have hval : tcResultFor e = { platform := e.platform, connected := true } := by
      rw [tcResultFor, hcap]
      cases hs : e.client.send "Test" none with
      | fulfilled r => rfl
      | rejected m => rw [hs] at hful; simp [SendOutcome.isRejected] at hful
    exact hval ▸ List.mem_map_of_mem (fun e => (e.aliasName, tcResultFor e)) he

/-- C5 (witness): the fallback probe evaluated on a one-client group
whose client has no `testConnection` and always rejects. -/
theorem testConnections_fallback_witness :
    (("client_1" : String),
      ({ platform := "slack", connected := false } : TestConnectionResult))
      ∈ testConnections soloFailGroup := by
  have hl : soloFailGroup.clients
      = [{ client := clientFail, aliasName := "client_1", platform := "slack" }] := rfl
  have h := testConnections_fallback soloFailGroup
    { client := clientFail, aliasName := "client_1", platform := "slack" }
    (by decide) (by rw [hl]; exact List.mem_singleton.mpr rfl) rfl
  exact h.1 rfl

/-- First-match characterization of `removeFirstAlias`: the flag is
`true` exactly when a matching entry exists; on `true` the clients
split around the first match and exactly it is removed; on `false`
the list is untouched. -/
theorem removeFirstAlias_spec (a : String) :
    ∀ cs : List ClientEntry,
      ((removeFirstAlias a cs).2 = true ↔ ∃ c ∈ cs, c.aliasName = a) ∧
      ((removeFirstAlias a cs).2 = true →
        ∃ pre c post, c.aliasName = a ∧ (∀ x ∈ pre, x.aliasName ≠ a) ∧
          cs = pre ++ c :: post ∧ (removeFirstAlias a cs).1 = pre ++ post) ∧
      ((removeFirstAlias a cs).2 = false → (removeFirstAlias a cs).1 = cs)
  | [] => by
    refine ⟨by simp [removeFirstAlias], by simp [removeFirstAlias], by simp [removeFirstAlias]⟩
  | c :: cs => by
    have ih := removeFirstAlias_spec a cs
    by_cases hc : c.aliasName = a
    · refine ⟨?_, ?_, ?_⟩
      · constructor
        · intro _
          exact ⟨c, List.mem_cons_self c cs, hc⟩
        · intro _
          simp [removeFirstAlias, hc]
      · intro _
        exact ⟨[], c, cs, hc, by simp, by simp, by simp [removeFirstAlias, hc]⟩
      · intro hfalse
        simp [removeFirstAlias, hc] at hfalse
    · have hrec1 : (removeFirstAlias a (c :: cs)).1 = c :: (removeFirstAlias a cs).1 := by
        simp [removeFirstAlias, hc]
      have hrec2 : (removeFirstAlias a (c :: cs)).2 = (removeFirstAlias a cs).2 := by
        simp [removeFirstAlias, hc]
      refine ⟨?_, ?_, ?_⟩
      · rw [hrec2, ih.1]
        constructor
        · rintro ⟨x, hx, hxa⟩
          exact ⟨x, List.mem_cons_of_mem c hx, hxa⟩
        · rintro ⟨x, hx, hxa⟩
          rcases List.mem_cons.mp hx with h1 | h2
          · exact absurd (h1 ▸ hxa) hc
          · exact ⟨x, h2, hxa⟩
      · intro htrue
        rw [hrec2] at htrue
        obtain ⟨pre, x, post, hxa, hpre, hsplit, hrem⟩ := ih.2.1 htrue
        refine ⟨c :: pre, x, post, hxa, ?_, by simp [hsplit],
          by rw [hrec1, hrem, List.cons_append]⟩
        intro y hy
        rcases List.mem_cons.mp hy with h1 | h2
        · exact h1 ▸ hc
        · exact hpre y h2
      · intro hfalse
        rw [hrec2] at hfalse
        rw [hrec1, ih.2.2 hfalse]

/-- C6: `removeClient(alias)` returns `true` exactly when an entry with
that exact alias existed before the call; when it returns `true` it
removes precisely the first matching entry (the part of the list
before it has no match and is kept) and `size()` drops by exactly 1;
when it returns `false` the group is unchanged. -/
theorem removeClient_spec (g : BroadcastGroup) (a : String) :
    ((removeClient g a).2 = true ↔ ∃ c ∈ g.clients, c.aliasName = a) ∧
    ((removeClient g a).2 = true →
      ∃ pre c post, c.aliasName = a ∧ (∀ x ∈ pre, x.aliasName ≠ a) ∧
        g.clients = pre ++ c :: post ∧
        (removeClient g a).1.clients = pre ++ post ∧
        size (removeClient g a).1 + 1 = size g) ∧
    ((removeClient g a).2 = false → (removeClient g a).1 = g) := by
  have h := removeFirstAlias_spec a g.clients
  refine ⟨by simpa [removeClient] using h.1, ?_, ?_⟩
  · intro htrue
    obtain ⟨pre, c, post, hca, hpre, hsplit, hrem⟩ :=
      h.2.1 (by simpa [removeClient] using htrue)
    refine ⟨pre, c, post, hca, hpre, hsplit, by simpa [removeClient] using hrem, ?_⟩
    simp only [size, removeClient]
    rw [hrem, hsplit]
    simp [List.length_append]
    omega
  · intro hfalse
    have := h.2.2 (by simpa [removeClient] using hfalse)
    cases g with
    | mk n cs => simp_all [removeClient]

/-- C6 (witness): the removal contract evaluated on the two-client
scenario group at the alias `"client_1"`. -/
theorem removeClient_spec_witness :
    (((removeClient scenarioGroup "client_1").2 = true
        ↔ ∃ c ∈ scenarioGroup.clients, c.aliasName = "client_1") ∧
    ((removeClient scenarioGroup "client_1").2 = true →
      ∃ pre c post, c.aliasName = "client_1" ∧ (∀ x ∈ pre, x.aliasName ≠ "client_1") ∧
        scenarioGroup.clients = pre ++ c :: post ∧
        (removeClient scenarioGroup "client_1").1.clients = pre ++ post ∧
        size (removeClient scenarioGroup "client_1").1 + 1 = size scenarioGroup) ∧
    ((removeClient scenarioGroup "client_1").2 = false →
      (removeClient scenarioGroup "client_1").1 = scenarioGroup)) :=
  removeClient_spec scenarioGroup "client_1"

/-- Dropping a list from the front of itself-plus-rest succeeds. -/
theorem dropPrefixQ_self_append : ∀ (p s : List Char), dropPrefixQ p (p ++ s) = some s
  | [], s => rfl
  | c :: p, s => by
    simp [dropPrefixQ, dropPrefixQ_self_append p s]

/-- The function `replaceFirstL` replaces a match sitting at the very front. -/
theorem replaceFirstL_at_front (c : Char) (p repl s : List Char) :
    replaceFirstL (c :: p) repl ((c :: p) ++ s) = repl ++ s := by
  have h := dropPrefixQ_self_append (c :: p) s
  rw [List.cons_append] at h ⊢
  rw [replaceFirstL, h]

/-- The function `replaceFirstL` leaves a string without any occurrence of the
pattern unchanged. -/
theorem replaceFirstL_no_occ (p repl : List Char) :
    ∀ s : List Char, occursIn p s = false → replaceFirstL p repl s = s
  | [], _ => rfl
  | c :: s, h => by
    have h2 := h
    simp only [occursIn, Bool.or_eq_false_iff] at h2
    have hnone : dropPrefixQ p (c :: s) = none :=
      Option.not_isSome_iff_eq_none.mp (by simp [h2.1])
    simp only [replaceFirstL, hnone]
    rw [replaceFirstL_no_occ p repl s h2.2]

/-- Modelled from the spec's words, for comparison with the code's
`platformLabel`: "its type name with any trailing "Client" suffix
stripped, lowercased". -/
def specPlatformLabel (ctorName : String) : String :=
  toLowerStr
    ⟨if ("Client".data).isSuffixOf ctorName.data then
        ctorName.data.take (ctorName.data.length - ("Client".data).length)
      else ctorName.data⟩

/-- A client whose constructor name contains "Client" only in a
NON-trailing (leading) position. -/
def managerClient : PlatformClient :=
  { ctorName := "ClientManager", send := okSend, sendEmbed := none, testConnection := none }

/-- A valid raw registration argument wrapping `managerClient`. -/
def rawManager : RawClient :=
  { isNullish := false, sendIsFunction := true, client := managerClient }

/-- C7 (counterexample): registering a client of type `ClientManager`
stores the platform label `"manager"` — the code removed the leading,
non-trailing occurrence of "Client" — while stripping only a trailing
"Client" suffix as the claim states would yield `"clientmanager"`. -/
theorem platform_label_cex :
    (addClientState emptyGroup rawManager none).clients.map (fun e => e.platform)
      = ["manager"] ∧
    specPlatformLabel "ClientManager" = "clientmanager" ∧
    ("manager" : String) ≠ "clientmanager" := by
  refine ⟨rfl, rfl, by decide⟩

/-- C7 (amended): the stored platform label is the constructor name
with the FIRST occurrence of "Client" removed — wherever it occurs,
not only a trailing one — then lowercased: a name without any
occurrence is only lowercased, and a leading "Client" is removed even
though it is not a suffix. -/
theorem addClient_platform_label (g : BroadcastGroup) (raw : RawClient) (a : Option String)
    (h : raw.isNullish = false ∧ raw.sendIsFunction = true) :
    ((addClientState g raw a).clients.map (fun e => e.platform)
      = g.clients.map (fun e => e.platform) ++ [platformLabel raw.client.ctorName]) ∧
    (∀ s : String, occursIn "Client".data s.data = false → platformLabel s = toLowerStr s) ∧
    (∀ rest : String, platformLabel ("Client" ++ rest) = toLowerStr rest) := by
  refine ⟨?_, ?_, ?_⟩
  · have hcond : (raw.isNullish || !raw.sendIsFunction) = false := by
      simp [h.1, h.2]
    simp [addClientState, addClient, hcond]
  · intro s hs
    unfold platformLabel replaceFirst
    rw [replaceFirstL_no_occ _ _ _ hs]
  · intro rest
    unfold platformLabel replaceFirst
    cases rest with
    | mk cs =>
      show toLowerStr ⟨replaceFirstL "Client".data [] (String.data ("Client" ++ ⟨cs⟩))⟩
        = toLowerStr ⟨cs⟩
      rw [show String.data ("Client" ++ ⟨cs⟩) = "Client".data ++ cs from rfl]
      rw [show ("Client".data : List Char)
        = 'C' :: ['l', 'i', 'e', 'n', 't'] from rfl]
      rw [replaceFirstL_at_front]
      rfl

/-- C7 (witness): the amended label property evaluated at the
`ClientManager` registration. -/
theorem addClient_platform_label_witness :
    ((addClientState emptyGroup rawManager none).clients.map (fun e => e.platform)
      = emptyGroup.clients.map (fun e => e.platform)
        ++ [platformLabel rawManager.client.ctorName]) ∧
    (∀ s : String, occursIn "Client".data s.data = false → platformLabel s = toLowerStr s) ∧
    (∀ rest : String, platformLabel ("Client" ++ rest) = toLowerStr rest) :=
  addClient_platform_label emptyGroup rawManager none ⟨rfl, rfl⟩

/-- C8 (counterexample): supplying the empty-string alias does NOT
store the supplied alias — the falsy check `alias || ...` falls back
to auto-generation, so `"client_1"` is stored instead of `""`. -/
theorem addClient_empty_supplied_alias_cex :
    (addClientState emptyGroup rawOK (some "")).clients.map (fun e => e.aliasName)
      = ["client_1"] ∧
    ("client_1" : String) ≠ "" := by
  refine ⟨rfl, by decide⟩

/-- C8 (amended): when no alias is supplied the stored alias is
`"client_" ++ (count+1)` (1-based, numbered by the registered count at
insertion time); when a NON-EMPTY alias is supplied, the supplied
alias is stored (an empty supplied alias falls back to
auto-generation). -/
theorem addClient_alias_assignment (g : BroadcastGroup) (raw : RawClient)
    (h : raw.isNullish = false ∧ raw.sendIsFunction = true) :
    ((addClientState g raw none).clients.map (fun e => e.aliasName)
      = g.clients.map (fun e => e.aliasName)
        ++ ["client_" ++ toString (g.clients.length + 1)]) ∧
    (∀ s : String, s ≠ "" →
      (addClientState g raw (some s)).clients.map (fun e => e.aliasName)
        = g.clients.map (fun e => e.aliasName) ++ [s]) := by
  have hcond : (raw.isNullish || !raw.sendIsFunction) = false := by
    simp [h.1, h.2]
  constructor
  · simp [addClientState, addClient, hcond]
  · intro s hs
    simp [addClientState, addClient, hcond, hs]

/-- C8 (witness): alias assignment evaluated at the empty group, for
an absent alias and for the supplied alias "mine". -/
theorem addClient_alias_assignment_witness :
    ((addClientState emptyGroup rawOK none).clients.map (fun e => e.aliasName)
      = ["client_1"]) ∧
    ((addClientState emptyGroup rawOK (some "mine")).clients.map (fun e => e.aliasName)
      = ["mine"]) := by
  have h := addClient_alias_assignment emptyGroup rawOK ⟨rfl, rfl⟩
  exact ⟨(h.1).trans (by decide), ((h.2 "mine" (by decide))).trans (by decide)⟩

/-- C9: `broadcastSuccess(title, description)` is exactly
`broadcastEmbed` of the green embed with "✅ "-prefixed title; in
particular `broadcastSuccess("Deploy", "ok")` equals
`broadcastEmbed({title: "✅ Deploy", description: "ok",
color: 0x00ff00})`. -/
theorem broadcastSuccess_is_embed (g : BroadcastGroup) (title description : String) :
    broadcastSuccess g title description
      = broadcastEmbed g
          { title := "✅ " ++ title, description := description, color := 0x00ff00 } ∧
    broadcastSuccess g "Deploy" "ok"
      = broadcastEmbed g
          { title := "✅ Deploy", description := "ok", color := 0x00ff00 } := by
  refine ⟨rfl, ?_⟩
  show broadcastEmbed g { title := "✅ " ++ "Deploy", description := "ok", color := 0x00ff00 }
    = broadcastEmbed g { title := "✅ Deploy", description := "ok", color := 0x00ff00 }
  rw [show ("✅ " ++ "Deploy" : String) = "✅ Deploy" from by decide]

/-- Entries surviving a removal were entries before it. -/
theorem removeFirstAlias_subset (a : String) (cs : List ClientEntry) :
    ∀ e ∈ (removeFirstAlias a cs).1, e ∈ cs := by
  intro e he
  cases hflag : (removeFirstAlias a cs).2 with
  | true =>
    obtain ⟨pre, c, post, _, _, hsplit, hrem⟩ := (removeFirstAlias_spec a cs).2.1 hflag
    rw [hrem] at he
    rw [hsplit]
    rcases List.mem_append.mp he with h1 | h2
    · exact List.mem_append.mpr (Or.inl h1)
    · exact List.mem_append.mpr (Or.inr (List.mem_cons_of_mem c h2))
  | false =>
    rw [(removeFirstAlias_spec a cs).2.2 hflag] at he
    exact he

/-- An auto-generated alias is never the empty string. -/
theorem autoAlias_ne_empty (n : Nat) : ("client_" ++ toString n : String) ≠ "" := by
  intro h
  have h2 := congrArg String.length h
  rw [String.length_append] at h2
  have h7 : ("client_" : String).length = 7 := rfl
  have h0 : ("" : String).length = 0 := rfl
  omega

/-- C10: supplying the empty-string alias is the very same call as
supplying no alias (auto-generation), and consequently no group
reachable through the public API ever holds an entry whose alias is
the empty string. -/
theorem addClient_empty_alias (g : BroadcastGroup) (raw : RawClient) :
    addClient g raw (some "") = addClient g raw none ∧
    (Reachable g → ∀ e ∈ g.clients, e.aliasName ≠ "") := by
  constructor
  · unfold addClient
    by_cases hc : (raw.isNullish || !raw.sendIsFunction) = true
    · simp [hc]
    · simp only [Bool.not_eq_true] at hc
      simp [hc]
  · intro hr
    induction hr with
    | new name =>
      intro e he
      simp at he
    | add g0 g' raw0 a0 hre hok ih =>
      intro e he
      unfold addClient at hok
      by_cases hc : (raw0.isNullish || !raw0.sendIsFunction) = true
      · rw [if_pos hc] at hok
        exact absurd hok (by simp)
      · rw [if_neg hc] at hok
        have hg' := Except.ok.inj hok
        rw [← hg'] at he
        simp only [List.mem_append, List.mem_singleton] at he
        rcases he with h1 | h2
        · exact ih e h1
        · subst h2
          cases a0 with
          | none => exact autoAlias_ne_empty (g0.clients.length + 1)
          | some s =>
            by_cases hs : s = ""
            · simp only [hs, if_pos rfl]
              exact autoAlias_ne_empty (g0.clients.length + 1)
            · simp only [if_neg hs]
              exact hs
    | remove g0 a0 hre ih =>
      intro e he
      exact ih e (removeFirstAlias_subset a0 g0.clients e he)

/-- C10 (witness): the empty-alias property evaluated at the freshly
constructed empty group and a concrete valid client. -/
theorem addClient_empty_alias_witness :
    (addClient emptyGroup rawOK (some "") = addClient emptyGroup rawOK none) ∧
    (∀ e ∈ emptyGroup.clients, e.aliasName ≠ "") :=
  ⟨(addClient_empty_alias emptyGroup rawOK).1,
   (addClient_empty_alias emptyGroup rawOK).2 (Reachable.new "alerts")⟩
